import Mathlib

/-!
Shallow embedding of the bridge module of this repository
(`srml/bridge/src/lib.rs` and `srml/bridge/src/justification.rs`).

Conventions of the embedding:
* Hashes (H256) and authority identifiers are modelled as `Nat`.  Header
  hashing is performed by the host runtime (Blake2 over the header's
  encoding, out of scope per the spec), so a header carries its hash as an
  explicit field of the structure.
* Machine integers (`u64`, block numbers) are modelled as `Nat`; the only
  place where 64-bit overflow is semantically relevant is the byte
  encoding, which reduces modulo `2 ^ 64` explicitly.
* A Rust function that can panic (out-of-bounds indexing, `unwrap`) is
  modelled with an `Option` layer: `none` is the panic / abort outcome,
  `some r` the regular return value `r`.
* A Rust loop that can fail to terminate (the ancestry walk of
  `justification.rs` on a cyclic header index) is modelled with explicit
  fuel; the fuel chosen provably dominates every terminating run, so
  `none` on fuel exhaustion coincides with genuine divergence.
-/

namespace Bridge

/-- Header of the remote chain.  The source is generic over the host
runtime's `Header` trait, which provides `number()`, `parent_hash()`,
`state_root()` and `hash()`; the hash is computed by the host runtime from
the full header, hence it is carried here as an opaque field. -/
structure Header where
  number : Nat
  parent_hash : Nat
  state_root : Nat
  hash : Nat
deriving DecidableEq, Repr

/-- The error enum declared by the module (`decl_error!` in lib.rs). -/
inductive Error where
  | InvalidStorageProof
  | InvalidValidatorSetProof
  | ValidatorSetMismatch
  | AncestorNotFound
deriving DecidableEq, Repr

instance {ε α : Type} [DecidableEq ε] [DecidableEq α] :
    DecidableEq (Except ε α) := fun x y =>
  match x, y with
  | .error e, .error f =>
      if h : e = f then isTrue (by rw [h])
      else isFalse (fun hh => h (by injection hh))
  | .error _, .ok _ => isFalse (fun hh => Except.noConfusion hh)
  | .ok _, .error _ => isFalse (fun hh => Except.noConfusion hh)
  | .ok a, .ok b =>
      if h : a = b then isTrue (by rw [h])
      else isFalse (fun hh => h (by injection hh))

/-- Per-bridge record stored by the module.  Mirrors `struct BridgeInfo`
of lib.rs, which has exactly these four fields. -/
structure BridgeInfo where
  last_finalized_block_number : Nat
  last_finalized_block_hash : Nat
  last_finalized_state_root : Nat
  current_validator_set : List (Nat × Nat)
deriving DecidableEq, Repr

/-- Constructor `BridgeInfo::new` of lib.rs. -/
def BridgeInfo.new (block_number block_hash state_root : Nat)
    (validator_set : List (Nat × Nat)) : BridgeInfo :=
  { last_finalized_block_number := block_number
    last_finalized_block_hash := block_hash
    last_finalized_state_root := state_root
    current_validator_set := validator_set }

/-- The module's persisted storage: the scalar `NumBridges` and the map
`TrackedBridges : BridgeId => Option BridgeInfo`.  The map is modelled as
an association list whose head shadows older entries (storage `insert`
overwrites). -/
structure BridgeState where
  numBridges : Nat
  trackedBridges : List (Nat × BridgeInfo)
deriving DecidableEq, Repr

/-- Storage getter `tracked_bridges`. -/
def tracked_bridges (s : BridgeState) (id : Nat) : Option BridgeInfo :=
  s.trackedBridges.lookup id

/-- Genesis storage: no bridges. -/
def emptyBridgeState : BridgeState :=
  { numBridges := 0, trackedBridges := [] }

/-- SCALE encoding of a `u64`: eight little-endian bytes of the value
reduced modulo `2 ^ 64`. -/
def encodeU64 (n : Nat) : List Nat :=
  let v := n % 2 ^ 64
  [v % 256, v / 256 % 256, v / 256 ^ 2 % 256, v / 256 ^ 3 % 256,
   v / 256 ^ 4 % 256, v / 256 ^ 5 % 256, v / 256 ^ 6 % 256, v / 256 ^ 7 % 256]

/-- Little-endian bytes of a natural number, minimal length. -/
def natLEBytes (n : Nat) : List Nat :=
  if h : n = 0 then []
  else
    have : n / 256 < n := Nat.div_lt_self (Nat.pos_of_ne_zero h) (by decide)
    (n % 256) :: natLEBytes (n / 256)

/-- SCALE compact encoding of a length prefix. -/
def compactEncode (n : Nat) : List Nat :=
  if n < 2 ^ 6 then [n * 4]
  else if n < 2 ^ 14 then
    [(n * 4 + 1) % 256, (n * 4 + 1) / 256]
  else if n < 2 ^ 30 then
    [(n * 4 + 2) % 256, (n * 4 + 2) / 256 % 256,
     (n * 4 + 2) / 256 ^ 2 % 256, (n * 4 + 2) / 256 ^ 3 % 256]
  else
    (((natLEBytes n).length - 4) * 4 + 3) :: natLEBytes n

/-- Modelled from the spec: the codec adapter's canonical encoding of a
validator set `Vec<(ValidatorId, ValidatorWeight)>` (spec section 4.A: the
codec implementation is an external collaborator, inherited bit-compatible
from the remote chain; integers little-endian, sequences length-prefixed).
This is what `validator_set.encode()` yields in lib.rs with the test
binding `ValidatorId = u64`, `ValidatorWeight = u64`. -/
def encode_validator_set (vs : List (Nat × Nat)) : List Nat :=
  compactEncode vs.length ++ vs.flatMap (fun p => encodeU64 p.1 ++ encodeU64 p.2)

/-- Modelled from the spec: the outcome of the storage-proof checker on a
given `(state_root, proof)` pair for the key `:grandpa_authorities`
(spec section 4.C; the file `srml/bridge/src/storage_proof.rs` is not
among the sources, so the checker is abstracted by its observable result).
`buildFailure` is `StorageProofChecker::new` returning an error,
`readFailure` is `read_value` returning an error, `absent` is `read_value`
returning `Ok(None)`, and `value v` is `read_value` returning
`Ok(Some v)`. -/
inductive CheckerOutcome where
  | buildFailure
  | readFailure
  | absent
  | value (bytes : List Nat)
deriving DecidableEq, Repr

/-- Embedding of `Module::check_validator_set_proof` of lib.rs.  The
source unwraps the checker construction and both layers of the read
result (`.unwrap()`, `.unwrap().unwrap()`), so every checker outcome
other than a present value is a panic, modelled as `none`.  With a value
present it compares the encoding of the given set byte-for-byte with the
retrieved value. -/
def check_validator_set_proof (checker : CheckerOutcome)
    (validator_set : List (Nat × Nat)) : Option (Except Error Unit) :=
  match checker with
  | .buildFailure => none
  | .readFailure => none
  | .absent => none
  | .value actual =>
      some (if encode_validator_set validator_set = actual
            then .ok () else .error .ValidatorSetMismatch)

/-- Result of a dispatchable call of the module: panic, origin rejection,
module error (storage rolled back), or success with the new storage. -/
inductive DispatchResult where
  | panicked
  | badOrigin
  | failed (e : Error)
  | succeeded (s : BridgeState)
deriving DecidableEq, Repr

/-- Embedding of the dispatchable `initialize_bridge` of lib.rs (the Lean
name is shortened).  `originSigned` models the outcome of
`ensure_signed(origin)`; the checker outcome stands for evaluating the
supplied `validator_set_proof` against the header's state root.  On
success a new id `NumBridges + 1` is assigned, the info inserted, and
`NumBridges` bumped. -/
def init_bridge (originSigned : Bool) (block_header : Header)
    (validator_set : List (Nat × Nat)) (checker : CheckerOutcome)
    (s : BridgeState) : DispatchResult :=
  if !originSigned then .badOrigin
  else
    match check_validator_set_proof checker validator_set with
    | none => .panicked
    | some (.error e) => .failed e
    | some (.ok ()) =>
        let bridge_info := BridgeInfo.new block_header.number
          block_header.hash block_header.state_root validator_set
        let new_bridge_id := s.numBridges + 1
        .succeeded { numBridges := new_bridge_id
                     trackedBridges := (new_bridge_id, bridge_info) :: s.trackedBridges }

/-- Embedding of the dispatchable `submit_finalized_headers` of lib.rs.
The source body is `let _sender = ensure_signed(origin)?;` and nothing
else: it takes no bridge id, header or justification, and performs no
storage access. -/
def submit_finalized_headers (originSigned : Bool) (s : BridgeState) :
    DispatchResult :=
  if originSigned then .succeeded s else .badOrigin

/-- Inner loop of `verify_ancestry` of lib.rs, iterating over
`proof[1..]`.  The first argument is `ancestor.hash()`, the second the
running `parent_hash`.  A header whose hash does not match the expected
parent hash breaks out of the loop, which then returns
`AncestorNotFound`. -/
def ancestryLoop (ancestorHash : Nat) : Nat → List Header → Except Error Unit
  | _, [] => .error .AncestorNotFound
  | parentHash, h :: rest =>
    if h.hash ≠ parentHash then .error .AncestorNotFound
    else if h.parent_hash = ancestorHash then .ok ()
    else ancestryLoop ancestorHash h.parent_hash rest

/-- Embedding of the free function `verify_ancestry` of lib.rs.  The
source starts with `let mut curr_header = &proof[0];`, which on an empty
proof is an out-of-bounds panic, modelled as `none`. -/
def verify_ancestry (proof : List Header) (ancestor child : Header) :
    Option (Except Error Unit) :=
  match proof with
  | [] => none
  | h0 :: rest =>
      some (if h0.hash ≠ child.hash then .error .AncestorNotFound
            else ancestryLoop ancestor.hash h0.parent_hash rest)

/-- Precommit of the finality gadget: a vote for a (hash, number) pair. -/
structure Precommit where
  target_hash : Nat
  target_number : Nat
deriving DecidableEq, Repr

/-- Signed precommit: precommit, authority id, signature (both opaque). -/
structure SignedPrecommit where
  precommit : Precommit
  id : Nat
  signature : Nat
deriving DecidableEq, Repr

/-- Commit: the aggregate of precommits finalizing a block. -/
structure Commit where
  target_hash : Nat
  target_number : Nat
  precommits : List SignedPrecommit
deriving DecidableEq, Repr

/-- Mirrors `struct GrandpaJustification` of justification.rs. -/
structure GrandpaJustification where
  round : Nat
  commit : Commit
  votes_ancestries : List Header
deriving DecidableEq, Repr

/-- Client-level errors produced by the justification verifier. -/
inductive ClientError where
  | JustificationDecode
  | BadJustification (msg : String)
deriving DecidableEq, Repr

/-- Error of the finality-gadget chain oracle. -/
inductive GrandpaError where
  | NotDescendent
deriving DecidableEq, Repr

/-- Error message for a justification whose commit targets a different
block than the caller expects. -/
def invalidTargetMsg : String := "invalid commit target in grandpa justification"

/-- Error message for a commit rejected by the finality gadget's
commit-validation routine (no ghost). -/
def invalidCommitMsg : String := "invalid commit in grandpa justification"

/-- Error message for a precommit whose signature does not verify. -/
def badSigMsg : String := "invalid signature for precommit in grandpa justification"

/-- Error message for a precommit that cannot be routed to the commit
target through the supplied ancestry headers. -/
def badAncMsg : String := "invalid precommit ancestry proof in grandpa justification"

/-- Error message for ancestry headers not visited by any route. -/
def unusedMsg : String := "invalid precommit ancestries in grandpa justification with unused headers"

/-- Lookup in the header index of `AncestryChain::new` of justification.rs:
a BTreeMap from header hash (compared as bytes) to header, built by
collecting the sequence, so a later header with the same hash overwrites
an earlier one. -/
def chainLookup (ancestry : List Header) (h : Nat) : Option Header :=
  ancestry.reverse.find? (fun hd => hd.hash == h)

/-- One-step-indexed embedding of the loop in `AncestryChain::ancestry`:
walk parent pointers from `current`, pushing each parent hash onto the
route, until `base` is reached; a hash absent from the index is
`NotDescendent`.  `none` on fuel exhaustion models the loop's divergence
on a cyclic index (see `AncestryChain.ancestry` for the fuel bound). -/
def ancestryGo (ancestry : List Header) (base : Nat) :
    Nat → Nat → List Nat → Option (Except GrandpaError (List Nat))
  | 0, _, _ => none
  | fuel + 1, current, route =>
    if current = base then some (.ok route.dropLast)
    else
      match chainLookup ancestry current with
      | some hdr => ancestryGo ancestry base fuel hdr.parent_hash (route ++ [hdr.parent_hash])
      | none => some (.error .NotDescendent)

/-- Embedding of `AncestryChain::ancestry` of justification.rs (the chain
oracle's route from `base` up to `block`, excluding both endpoints; the
final `route.pop()` removes `base`).  Every terminating run of the source
loop performs at most one successful lookup per distinct key of the index
plus a final test, so fuel `ancestry.length + 2` reproduces it exactly;
exhausting this fuel means a hash repeated, on which the source loop runs
forever (`none`). -/
def AncestryChain.ancestry (ancestry : List Header) (base block : Nat) :
    Option (Except GrandpaError (List Nat)) :=
  ancestryGo ancestry base (ancestry.length + 2) block []

/-- Main loop of `GrandpaJustification::verify` of justification.rs over
the commit's precommits: check the signature, skip precommits targeting
the commit target itself, route the rest through the ancestry chain and
accumulate the visited hashes.  `sigOk` abstracts `check_message_sig`
(Ed25519 verification over the localized payload, an external
primitive). -/
def verifyLoop (sigOk : SignedPrecommit → Bool) (commitTarget : Nat)
    (chain : List Header) :
    List SignedPrecommit → Finset Nat → Option (Except ClientError (Finset Nat))
  | [], visited => some (.ok visited)
  | signed :: rest, visited =>
    if !sigOk signed then some (.error (.BadJustification badSigMsg))
    else if commitTarget = signed.precommit.target_hash then
      verifyLoop sigOk commitTarget chain rest visited
    else
      match AncestryChain.ancestry chain commitTarget signed.precommit.target_hash with
      | none => none
      | some (.error _) => some (.error (.BadJustification badAncMsg))
      | some (.ok route) =>
          verifyLoop sigOk commitTarget chain rest
            (insert signed.precommit.target_hash visited ∪ route.toFinset)

/-- Embedding of `GrandpaJustification::verify` of justification.rs.
`vcGhost` abstracts the external `grandpa::validate_commit` call: it is
`true` exactly when that routine returns `Ok` with a present ghost.
After the loop, the set of visited hashes must equal the set of hashes of
the headers in `votes_ancestries`. -/
def GrandpaJustification.verify (vcGhost : Bool) (sigOk : SignedPrecommit → Bool)
    (j : GrandpaJustification) : Option (Except ClientError Unit) :=
  if !vcGhost then some (.error (.BadJustification invalidCommitMsg))
  else
    match verifyLoop sigOk j.commit.target_hash j.votes_ancestries
        j.commit.precommits ∅ with
    | none => none
    | some (.error e) => some (.error e)
    | some (.ok visited) =>
        if visited = (j.votes_ancestries.map Header.hash).toFinset then some (.ok ())
        else some (.error (.BadJustification unusedMsg))

/-- Embedding of `GrandpaJustification::decode_and_verify_finalizes` of
justification.rs.  `dec` abstracts the derived SCALE decoder for
`GrandpaJustification` (the codec implementation is an external
collaborator per the spec): `none` is a decode failure. -/
def decode_and_verify_finalizes (dec : List Nat → Option GrandpaJustification)
    (vcGhost : Bool) (sigOk : SignedPrecommit → Bool)
    (encoded : List Nat) (finalized_target : Nat × Nat) :
    Option (Except ClientError GrandpaJustification) :=
  match dec encoded with
  | none => some (.error .JustificationDecode)
  | some j =>
      if (j.commit.target_hash, j.commit.target_number) ≠ finalized_target then
        some (.error (.BadJustification invalidTargetMsg))
      else
        match j.verify vcGhost sigOk with
        | none => none
        | some (.error e) => some (.error e)
        | some (.ok ()) => some (.ok j)

/-- Targets of the precommits of a list that are routed through the
ancestry chain: those differing from the given commit target (the loop
skips the others). -/
def precommitTargets (base : Nat) (l : List SignedPrecommit) : List Nat :=
  (l.map (fun s => s.precommit.target_hash)).filter (fun t => base != t)

/-- Targets of a commit's precommits that are routed through the ancestry
chain. -/
def routeTargets (commit : Commit) : List Nat :=
  precommitTargets commit.target_hash commit.precommits

/-- Whether the chain oracle yields a route from `base` to `t`. -/
def routeOk (chain : List Header) (base t : Nat) : Bool :=
  match AncestryChain.ancestry chain base t with
  | some (.ok _) => true
  | _ => false

/-- The route the chain oracle yields from `base` to `t` (empty when the
walk fails, in which case `routeOk` is false). -/
def theRoute (chain : List Header) (base t : Nat) : List Nat :=
  match AncestryChain.ancestry chain base t with
  | some (.ok r) => r
  | _ => []

/-- Declarative set of hashes visited while routing a list of targets:
each target itself plus every hash on its route. -/
def visitedSpec (chain : List Header) (base : Nat) (ts : List Nat) : Finset Nat :=
  ts.foldr (fun t acc => insert t acc ∪ (theRoute chain base t).toFinset) ∅

/-- Routing part of the verify loop with the signature checks stripped:
used to characterize `verifyLoop` when every signature verifies. -/
def collectVisited (chain : List Header) (base : Nat) :
    List Nat → Finset Nat → Option (Except Unit (Finset Nat))
  | [], acc => some (.ok acc)
  | t :: ts, acc =>
    match AncestryChain.ancestry chain base t with
    | none => none
    | some (.error _) => some (.error ())
    | some (.ok route) => collectVisited chain base ts (insert t acc ∪ route.toFinset)

theorem ancestryLoop_append (a : Nat) :
    ∀ (pre : List Header) (ph : Nat), ancestryLoop a ph pre = .ok () →
      ∀ rest : List Header, ancestryLoop a ph (pre ++ rest) = .ok () := by
  intro pre
  induction pre with
  | nil => intro ph h; simp [ancestryLoop] at h
  | cons hd tl ih =>
      intro ph h rest
      simp only [ancestryLoop, List.cons_append] at h ⊢
      by_cases h1 : hd.hash ≠ ph
      · simp [h1] at h
      · simp only [h1, if_false] at h ⊢
        by_cases h2 : hd.parent_hash = a
        · simp [h2]
        · simp only [h2, if_false] at h ⊢
          exact ih _ h rest

/-- Claim C1: for every bridge id present in the registry, a successful
call to submit_finalized_headers strictly increases the stored bridge's
last_finalized_block_number, and a header at or below it is refused.  The
source body of `submit_finalized_headers` is only the origin check: a
signed call always succeeds and returns the storage unchanged, so no
stored BridgeInfo is ever updated and no call is refused for
monotonicity.  This theorem evaluates the code at the failing input:
success with an unchanged registry. -/
theorem submit_finalized_headers_noop :
    ∀ s : BridgeState, submit_finalized_headers true s = .succeeded s := by
  intro s; rfl

/-- Claim C2: verify_ancestry on an empty proof returns AncestorNotFound
without panicking.  The source dereferences `proof[0]` before any length
check, so the empty proof is an out-of-bounds panic (`none` in this
embedding), not the typed error. -/
theorem verify_ancestry_empty_proof_panics :
    ∀ ancestor child : Header, verify_ancestry [] ancestor child = none := by
  intro ancestor child; rfl

/-- Claim C3: when the storage-proof checker cannot be built, or the
value at the key is unreadable or absent, check_validator_set_proof
returns InvalidStorageProof or InvalidValidatorSetProof and never panics.
The source unwraps both the checker construction and the read result, so
each of these outcomes is a panic (`none`), never a typed error. -/
theorem check_validator_set_proof_panics_on_checker_failure :
    ∀ vs : List (Nat × Nat),
      check_validator_set_proof .buildFailure vs = none
      ∧ check_validator_set_proof .readFailure vs = none
      ∧ check_validator_set_proof .absent vs = none := by
  intro vs; exact ⟨rfl, rfl, rfl⟩

/-- Claim C4: with a well-formed proof yielding a value for the key,
check_validator_set_proof returns Ok exactly when the canonical encoding
of the expected set equals the retrieved value byte for byte, and
ValidatorSetMismatch when they differ; reordering the same pairs is
rejected because the encoding is order-sensitive. -/
theorem check_validator_set_proof_ok_iff_encoding_matches :
    ∀ (actual : List Nat) (vs : List (Nat × Nat)),
      (check_validator_set_proof (.value actual) vs = some (.ok ())
        ↔ encode_validator_set vs = actual)
      ∧ (encode_validator_set vs ≠ actual →
          check_validator_set_proof (.value actual) vs
            = some (.error .ValidatorSetMismatch))
      ∧ check_validator_set_proof
          (.value (encode_validator_set [(1, 1), (2, 1), (3, 1)]))
          [(3, 1), (2, 1), (1, 1)]
          = some (.error .ValidatorSetMismatch) := by
  intro actual vs
  refine ⟨?_, ?_, by decide⟩
  · by_cases h : encode_validator_set vs = actual <;>
      simp [check_validator_set_proof, h]
  · intro h; simp [check_validator_set_proof, h]

theorem check_validator_set_proof_mismatch_witness :
    check_validator_set_proof (.value (encode_validator_set [(1, 1)])) [(2, 1)]
      = some (.error .ValidatorSetMismatch) :=
  (check_validator_set_proof_ok_iff_encoding_matches
    (encode_validator_set [(1, 1)]) [(2, 1)]).2.1 (by decide)

/-- Claim C7 counterexample: the claim asserts that a single-element
proof [child] succeeds when child's parent hash equals the ancestor's
hash; at this concrete input the parent hash matches yet the code still
returns AncestorNotFound, because the success test only runs from proof
index 1 onward. -/
theorem verify_ancestry_single_element_counterexample :
    (⟨2, 5, 0, 7⟩ : Header).parent_hash = (⟨1, 0, 0, 5⟩ : Header).hash
    ∧ verify_ancestry [⟨2, 5, 0, 7⟩] ⟨1, 0, 0, 5⟩ ⟨2, 5, 0, 7⟩
        = some (.error .AncestorNotFound) := by
  decide

/-- Claim C7 (amended): verify_ancestry on the single-element proof
[child] always returns AncestorNotFound, even when child's parent hash
equals the ancestor's hash; success requires at least two proof
elements. -/
theorem verify_ancestry_single_element_always_fails :
    ∀ ancestor child : Header,
      verify_ancestry [child] ancestor child
        = some (.error .AncestorNotFound) := by
  intro ancestor child
  simp [verify_ancestry, ancestryLoop]

/-- Claim C8: the claim asserts BridgeInfo carries a current_set_id field
set to 0 by initialize_bridge.  The source BridgeInfo has exactly four
fields and no set id; this theorem evaluates a successful initialization
at the failing input: the stored record is fully determined by the four
fields (number, hash, state root, validator set). -/
theorem init_bridge_stores_four_field_bridge_info :
    init_bridge true ⟨42, 0, 7, 99⟩ [(1, 1), (2, 1), (3, 1)]
      (.value (encode_validator_set [(1, 1), (2, 1), (3, 1)])) emptyBridgeState
      = .succeeded ⟨1, [(1, ⟨42, 99, 7, [(1, 1), (2, 1), (3, 1)]⟩)]⟩ := by
  decide

/-- Claim C9 counterexample: the claim asserts initialize_bridge cannot
succeed with an empty validator set.  At this concrete input the checker
yields exactly the encoding of the empty set, the call succeeds, and the
registry then stores a BridgeInfo whose validator set is empty (total
weight 0). -/
theorem init_bridge_empty_validator_set_counterexample :
    init_bridge true ⟨42, 0, 7, 99⟩ [] (.value (encode_validator_set []))
        emptyBridgeState
      = .succeeded ⟨1, [(1, BridgeInfo.new 42 99 7 [])]⟩
    ∧ tracked_bridges ⟨1, [(1, BridgeInfo.new 42 99 7 [])]⟩ 1
        = some (BridgeInfo.new 42 99 7 [])
    ∧ (BridgeInfo.new 42 99 7 []).current_validator_set = [] := by
  decide

/-- Claim C9 (amended): the module does not enforce non-emptiness of the
validator set: from any state, initialize_bridge with an empty set
succeeds whenever the storage proof yields the encoding of the empty
set, and the new bridge's stored validator set is empty. -/
theorem init_bridge_accepts_empty_validator_set :
    ∀ (hdr : Header) (s : BridgeState),
      init_bridge true hdr [] (.value (encode_validator_set [])) s
        = .succeeded
            { numBridges := s.numBridges + 1
              trackedBridges :=
                (s.numBridges + 1,
                  BridgeInfo.new hdr.number hdr.hash hdr.state_root []) ::
                  s.trackedBridges }
      ∧ tracked_bridges
            { numBridges := s.numBridges + 1
              trackedBridges :=
                (s.numBridges + 1,
                  BridgeInfo.new hdr.number hdr.hash hdr.state_root []) ::
                  s.trackedBridges }
            (s.numBridges + 1)
          = some (BridgeInfo.new hdr.number hdr.hash hdr.state_root []) := by
  intro hdr s
  refine ⟨rfl, ?_⟩
  simp [tracked_bridges, List.lookup]

/-- Claim C10: once a proof element at index i at least 1 chains
correctly and its parent hash equals the ancestor's hash, verify_ancestry
succeeds without examining later elements: appending arbitrary headers to
an accepted proof never changes acceptance, and the ancestor's own header
need not appear in the proof (second conjunct: an accepted two-element
proof followed by an unrelated header, with the ancestor absent). -/
theorem verify_ancestry_early_return :
    (∀ (ancestor child : Header) (proof rest : List Header),
        verify_ancestry proof ancestor child = some (.ok ()) →
        verify_ancestry (proof ++ rest) ancestor child = some (.ok ()))
    ∧ verify_ancestry [⟨3, 7, 0, 9⟩, ⟨2, 5, 0, 7⟩, ⟨99, 123, 0, 77⟩]
        ⟨1, 0, 0, 5⟩ ⟨3, 7, 0, 9⟩ = some (.ok ())
    ∧ (⟨1, 0, 0, 5⟩ : Header) ∉
        [(⟨3, 7, 0, 9⟩ : Header), ⟨2, 5, 0, 7⟩, ⟨99, 123, 0, 77⟩] := by
  refine ⟨?_, by decide, by decide⟩
  intro ancestor child proof rest h
  cases proof with
  | nil => simp [verify_ancestry] at h
  | cons h0 tl =>
      simp only [verify_ancestry, List.cons_append, Option.some.injEq] at h ⊢
      by_cases h1 : h0.hash ≠ child.hash
      · simp [h1] at h
      · simp only [h1, if_false] at h ⊢
        exact ancestryLoop_append _ _ _ h rest

theorem visitedSpec_cons (chain : List Header) (base t : Nat) (ts : List Nat) :
    visitedSpec chain base (t :: ts)
      = insert t (visitedSpec chain base ts)
          ∪ (theRoute chain base t).toFinset := rfl

theorem routeOk_of_ok (chain : List Header) (base t : Nat) (r : List Nat)
    (h : AncestryChain.ancestry chain base t = some (.ok r)) :
    routeOk chain base t = true := by
  show (match AncestryChain.ancestry chain base t with
        | some (.ok _) => true
        | _ => false) = true
  rw [h]

theorem routeOk_of_none (chain : List Header) (base t : Nat)
    (h : AncestryChain.ancestry chain base t = none) :
    routeOk chain base t = false := by
  show (match AncestryChain.ancestry chain base t with
        | some (.ok _) => true
        | _ => false) = false
  rw [h]

theorem routeOk_of_error (chain : List Header) (base t : Nat) (e : GrandpaError)
    (h : AncestryChain.ancestry chain base t = some (.error e)) :
    routeOk chain base t = false := by
  show (match AncestryChain.ancestry chain base t with
        | some (.ok _) => true
        | _ => false) = false
  rw [h]

theorem theRoute_of_ok (chain : List Header) (base t : Nat) (r : List Nat)
    (h : AncestryChain.ancestry chain base t = some (.ok r)) :
    theRoute chain base t = r := by
  show (match AncestryChain.ancestry chain base t with
        | some (.ok r) => r
        | _ => []) = r
  rw [h]

theorem collectVisited_nil (chain : List Header) (base : Nat) (acc : Finset Nat) :
    collectVisited chain base [] acc = some (.ok acc) := rfl

theorem collectVisited_cons_none (chain : List Header) (base t : Nat)
    (ts : List Nat) (acc : Finset Nat)
    (h : AncestryChain.ancestry chain base t = none) :
    collectVisited chain base (t :: ts) acc = none := by
  show (match AncestryChain.ancestry chain base t with
        | none => none
        | some (.error _) => some (.error ())
        | some (.ok route) =>
            collectVisited chain base ts (insert t acc ∪ route.toFinset)) = none
  rw [h]

theorem collectVisited_cons_error (chain : List Header) (base t : Nat)
    (ts : List Nat) (acc : Finset Nat) (e : GrandpaError)
    (h : AncestryChain.ancestry chain base t = some (.error e)) :
    collectVisited chain base (t :: ts) acc = some (.error ()) := by
  show (match AncestryChain.ancestry chain base t with
        | none => none
        | some (.error _) => some (.error ())
        | some (.ok route) =>
            collectVisited chain base ts (insert t acc ∪ route.toFinset))
      = some (.error ())
  rw [h]

theorem collectVisited_cons_ok (chain : List Header) (base t : Nat)
    (ts : List Nat) (acc : Finset Nat) (r : List Nat)
    (h : AncestryChain.ancestry chain base t = some (.ok r)) :
    collectVisited chain base (t :: ts) acc
      = collectVisited chain base ts (insert t acc ∪ r.toFinset) := by
  show (match AncestryChain.ancestry chain base t with
        | none => none
        | some (.error _) => some (.error ())
        | some (.ok route) =>
            collectVisited chain base ts (insert t acc ∪ route.toFinset))
      = collectVisited chain base ts (insert t acc ∪ r.toFinset)
  rw [h]

theorem collectVisited_ok_iff (chain : List Header) (base : Nat) :
    ∀ (ts : List Nat) (acc V : Finset Nat),
      collectVisited chain base ts acc = some (.ok V) ↔
        ((∀ t ∈ ts, routeOk chain base t = true)
          ∧ V = acc ∪ visitedSpec chain base ts) := by
  intro ts
  induction ts with
  | nil =>
      intro acc V
      rw [collectVisited_nil]
      constructor
      · intro h
        have h1 := Except.ok.inj (Option.some.inj h)
        exact ⟨by intro t ht; exact absurd ht (List.not_mem_nil t),
          by rw [← h1, visitedSpec, List.foldr_nil, Finset.union_empty]⟩
      · rintro ⟨_, hV⟩
        rw [hV, visitedSpec, List.foldr_nil, Finset.union_empty]
  | cons t ts ih =>
      intro acc V
      cases hanc : AncestryChain.ancestry chain base t with
      | none =>
          rw [collectVisited_cons_none chain base t ts acc hanc]
          constructor
          · intro h; exact Option.noConfusion h
          · rintro ⟨hall, _⟩
            have h1 := hall t (List.mem_cons_self t ts)
            rw [routeOk_of_none chain base t hanc] at h1
            exact Bool.noConfusion h1
      | some r =>
          cases r with
          | error e =>
              rw [collectVisited_cons_error chain base t ts acc e hanc]
              constructor
              · intro h; exact Except.noConfusion (Option.some.inj h)
              · rintro ⟨hall, _⟩
                have h1 := hall t (List.mem_cons_self t ts)
                rw [routeOk_of_error chain base t e hanc] at h1
                exact Bool.noConfusion h1
          | ok route =>
              rw [collectVisited_cons_ok chain base t ts acc route hanc, ih]
              have hroute := theRoute_of_ok chain base t route hanc
              have hset : (insert t acc ∪ route.toFinset)
                    ∪ visitedSpec chain base ts
                  = acc ∪ visitedSpec chain base (t :: ts) := by
                rw [visitedSpec_cons, hroute]
                ext x
                simp only [Finset.mem_union, Finset.mem_insert]
                tauto
              constructor
              · rintro ⟨hall, hV⟩
                refine ⟨?_, ?_⟩
                · intro u hu
                  rcases List.mem_cons.mp hu with h | h
                  · rw [h]; exact routeOk_of_ok chain base t route hanc
                  · exact hall u h
                · rw [hV, hset]
              · rintro ⟨hall, hV⟩
                refine ⟨fun u hu => hall u (List.mem_cons_of_mem _ hu), ?_⟩
                rw [hV, ← hset]

theorem collectVisited_error_of_route_failure (chain : List Header) (base : Nat) :
    ∀ (ts : List Nat) (acc : Finset Nat),
      (∀ t ∈ ts, AncestryChain.ancestry chain base t ≠ none) →
      ¬ (∀ t ∈ ts, routeOk chain base t = true) →
      collectVisited chain base ts acc = some (.error ()) := by
  intro ts
  induction ts with
  | nil =>
      intro acc _ hbad
      exact absurd (by intro t ht; exact absurd ht (List.not_mem_nil t)) hbad
  | cons t ts ih =>
      intro acc hnd hbad
      cases hanc : AncestryChain.ancestry chain base t with
      | none => exact absurd hanc (hnd t (List.mem_cons_self t ts))
      | some r =>
          cases r with
          | error e => exact collectVisited_cons_error chain base t ts acc e hanc
          | ok route =>
              rw [collectVisited_cons_ok chain base t ts acc route hanc]
              apply ih
              · exact fun u hu => hnd u (List.mem_cons_of_mem _ hu)
              · intro hall
                apply hbad
                intro u hu
                rcases List.mem_cons.mp hu with h | h
                · rw [h]; exact routeOk_of_ok chain base t route hanc
                · exact hall u h

theorem precommitTargets_nil (base : Nat) : precommitTargets base [] = [] := rfl

theorem precommitTargets_cons_skip (base : Nat) (s : SignedPrecommit)
    (l : List SignedPrecommit) (h : base = s.precommit.target_hash) :
    precommitTargets base (s :: l) = precommitTargets base l := by
  simp [precommitTargets, List.filter_cons, h]

theorem precommitTargets_cons_keep (base : Nat) (s : SignedPrecommit)
    (l : List SignedPrecommit) (h : ¬ base = s.precommit.target_hash) :
    precommitTargets base (s :: l)
      = s.precommit.target_hash :: precommitTargets base l := by
  simp [precommitTargets, List.filter_cons, h]

theorem verifyLoop_nil (sigOk : SignedPrecommit → Bool) (base : Nat)
    (chain : List Header) (visited : Finset Nat) :
    verifyLoop sigOk base chain [] visited = some (.ok visited) := rfl

theorem verifyLoop_cons (sigOk : SignedPrecommit → Bool) (base : Nat)
    (chain : List Header) (s : SignedPrecommit) (l : List SignedPrecommit)
    (visited : Finset Nat) :
    verifyLoop sigOk base chain (s :: l) visited =
      (if !sigOk s then some (.error (.BadJustification badSigMsg))
       else if base = s.precommit.target_hash then
         verifyLoop sigOk base chain l visited
       else
         match AncestryChain.ancestry chain base s.precommit.target_hash with
         | none => none
         | some (.error _) => some (.error (.BadJustification badAncMsg))
         | some (.ok route) =>
             verifyLoop sigOk base chain l
               (insert s.precommit.target_hash visited ∪ route.toFinset)) := rfl

theorem verifyLoop_eq_collect (sigOk : SignedPrecommit → Bool) (base : Nat)
    (chain : List Header) :
    ∀ (l : List SignedPrecommit) (acc : Finset Nat),
      (∀ s ∈ l, sigOk s = true) →
      verifyLoop sigOk base chain l acc =
        (match collectVisited chain base (precommitTargets base l) acc with
         | none => none
         | some (.error _) => some (.error (.BadJustification badAncMsg))
         | some (.ok V) => some (.ok V)) := by
  intro l
  induction l with
  | nil => intro acc _; rfl
  | cons s l ih =>
      intro acc hsig
      have hs : sigOk s = true := hsig s (List.mem_cons_self s l)
      have hrest : ∀ u ∈ l, sigOk u = true :=
        fun u hu => hsig u (List.mem_cons_of_mem _ hu)
      have hns : ¬((!sigOk s) = true) := by rw [hs]; decide
      rw [verifyLoop_cons, if_neg hns]
      by_cases htgt : base = s.precommit.target_hash
      · rw [if_pos htgt, precommitTargets_cons_skip base s l htgt]
        exact ih acc hrest
      · rw [if_neg htgt, precommitTargets_cons_keep base s l htgt]
        cases hanc : AncestryChain.ancestry chain base s.precommit.target_hash with
        | none =>
            rw [collectVisited_cons_none chain base _ _ acc hanc]
        | some r =>
            cases r with
            | error e =>
                rw [collectVisited_cons_error chain base _ _ acc e hanc]
            | ok route =>
                rw [collectVisited_cons_ok chain base _ _ acc route hanc]
                exact ih _ hrest

/-- Claim C5: when the justification decodes, matches the target, and
passes commit validation and all signature checks, verification succeeds
exactly when every non-target precommit can be routed to the commit
target and the set of hashes of the votes_ancestries headers equals the
visited set (each routed target plus every hash on its route); with all
routes available but a set mismatch (extra, unreferenced headers) the
result is the unused-headers BadJustification, and with a route missing
(a needed header removed) it is the ancestry-proof BadJustification. -/
theorem justification_verify_ancestry_coverage
    (j : GrandpaJustification) (sigOk : SignedPrecommit → Bool)
    (hsig : ∀ s ∈ j.commit.precommits, sigOk s = true) :
    (j.verify true sigOk = some (.ok ()) ↔
      ((∀ t ∈ routeTargets j.commit,
          routeOk j.votes_ancestries j.commit.target_hash t = true)
        ∧ visitedSpec j.votes_ancestries j.commit.target_hash (routeTargets j.commit)
            = (j.votes_ancestries.map Header.hash).toFinset))
    ∧ ((∀ t ∈ routeTargets j.commit,
          routeOk j.votes_ancestries j.commit.target_hash t = true) →
        visitedSpec j.votes_ancestries j.commit.target_hash (routeTargets j.commit)
            ≠ (j.votes_ancestries.map Header.hash).toFinset →
        j.verify true sigOk = some (.error (.BadJustification unusedMsg)))
    ∧ ((∀ t ∈ routeTargets j.commit,
          AncestryChain.ancestry j.votes_ancestries j.commit.target_hash t ≠ none) →
        ¬ (∀ t ∈ routeTargets j.commit,
            routeOk j.votes_ancestries j.commit.target_hash t = true) →
        j.verify true sigOk = some (.error (.BadJustification badAncMsg))) := by
  have hv : j.verify true sigOk =
      (match collectVisited j.votes_ancestries j.commit.target_hash
          (routeTargets j.commit) ∅ with
       | none => none
       | some (.error _) => some (.error (.BadJustification badAncMsg))
       | some (.ok V) =>
           if V = (j.votes_ancestries.map Header.hash).toFinset then some (.ok ())
           else some (.error (.BadJustification unusedMsg))) := by
    unfold GrandpaJustification.verify routeTargets
    rw [if_neg (show ¬((!true) = true) by decide)]
    rw [verifyLoop_eq_collect sigOk j.commit.target_hash j.votes_ancestries
      j.commit.precommits ∅ hsig]
    cases collectVisited j.votes_ancestries j.commit.target_hash
        (precommitTargets j.commit.target_hash j.commit.precommits) ∅ with
    | none => rfl
    | some r => cases r with
      | error e => rfl
      | ok V => rfl
  constructor
  · rw [hv]
    cases hC : collectVisited j.votes_ancestries j.commit.target_hash
        (routeTargets j.commit) ∅ with
    | none =>
        constructor
        · intro h; exact Option.noConfusion h
        · rintro ⟨hall, _⟩
          have hok := (collectVisited_ok_iff _ _ (routeTargets j.commit) ∅
            (∅ ∪ visitedSpec j.votes_ancestries j.commit.target_hash
              (routeTargets j.commit))).mpr ⟨hall, rfl⟩
          rw [hC] at hok
          exact Option.noConfusion hok
    | some r => cases r with
      | error e =>
          cases e
          constructor
          · intro h; exact Except.noConfusion (Option.some.inj h)
          · rintro ⟨hall, _⟩
            have hok := (collectVisited_ok_iff _ _ (routeTargets j.commit) ∅
              (∅ ∪ visitedSpec j.votes_ancestries j.commit.target_hash
                (routeTargets j.commit))).mpr ⟨hall, rfl⟩
            rw [hC] at hok
            exact Except.noConfusion (Option.some.inj hok)
      | ok V =>
          have hVc := (collectVisited_ok_iff _ _ (routeTargets j.commit) ∅ V).mp hC
          rcases hVc with ⟨hall, hV⟩
          rw [Finset.empty_union] at hV
          show (if V = (j.votes_ancestries.map Header.hash).toFinset then
              some (Except.ok ())
            else some (Except.error (ClientError.BadJustification unusedMsg)))
              = some (Except.ok ()) ↔ _
          by_cases hset : V = (j.votes_ancestries.map Header.hash).toFinset
          · rw [if_pos hset]
            constructor
            · intro _; exact ⟨hall, by rw [← hV, hset]⟩
            · intro _; rfl
          · rw [if_neg hset]
            constructor
            · intro h; exact Except.noConfusion (Option.some.inj h)
            · rintro ⟨_, hspec⟩
              exact absurd (by rw [hV, hspec]) hset
  constructor
  · intro hall hset
    rw [hv]
    have hok := (collectVisited_ok_iff _ _ (routeTargets j.commit) ∅
      (∅ ∪ visitedSpec j.votes_ancestries j.commit.target_hash
        (routeTargets j.commit))).mpr ⟨hall, rfl⟩
    rw [hok]
    show (if (∅ ∪ visitedSpec j.votes_ancestries j.commit.target_hash
          (routeTargets j.commit))
        = (j.votes_ancestries.map Header.hash).toFinset then
        some (Except.ok ())
      else some (Except.error (ClientError.BadJustification unusedMsg)))
        = some (Except.error (ClientError.BadJustification unusedMsg))
    rw [Finset.empty_union, if_neg hset]
  · intro hnd hbad
    rw [hv]
    rw [collectVisited_error_of_route_failure _ _ (routeTargets j.commit) ∅
      hnd hbad]

theorem justification_verify_ancestry_coverage_witness :
    GrandpaJustification.verify true (fun _ => true)
        ⟨1, ⟨10, 5, [⟨⟨20, 6⟩, 1, 0⟩, ⟨⟨10, 5⟩, 2, 0⟩]⟩, [⟨6, 10, 0, 20⟩]⟩
      = some (.ok ()) :=
  (justification_verify_ancestry_coverage
    ⟨1, ⟨10, 5, [⟨⟨20, 6⟩, 1, 0⟩, ⟨⟨10, 5⟩, 2, 0⟩]⟩, [⟨6, 10, 0, 20⟩]⟩
    (fun _ => true) (by intro s _; rfl)).1.mpr (by decide)

/-- Claim C6: decode_and_verify_finalizes first decodes the bytes,
failing with JustificationDecode; on a decoded justification whose commit
target pair differs from the expected finalized target it fails with the
invalid-commit-target BadJustification; only when the target matches is
the rest of the verification (commit validity, signatures, ancestry
coverage) consulted, and the result is then exactly that of verify. -/
theorem decode_and_verify_finalizes_dispatch_order :
    ∀ (dec : List Nat → Option GrandpaJustification) (vc : Bool)
      (sigOk : SignedPrecommit → Bool) (enc : List Nat) (tgt : Nat × Nat),
      (dec enc = none →
        decode_and_verify_finalizes dec vc sigOk enc tgt
          = some (.error .JustificationDecode))
      ∧ (∀ j, dec enc = some j →
          (j.commit.target_hash, j.commit.target_number) ≠ tgt →
          decode_and_verify_finalizes dec vc sigOk enc tgt
            = some (.error (.BadJustification invalidTargetMsg)))
      ∧ (∀ j, dec enc = some j →
          (j.commit.target_hash, j.commit.target_number) = tgt →
          decode_and_verify_finalizes dec vc sigOk enc tgt
            = (match j.verify vc sigOk with
               | none => none
               | some (.error e) => some (.error e)
               | some (.ok ()) => some (.ok j))) := by
  intro dec vc sigOk enc tgt
  refine ⟨?_, ?_, ?_⟩
  · intro h
    simp [decode_and_verify_finalizes, h]
  · intro j hj hne
    simp [decode_and_verify_finalizes, hj, hne]
  · intro j hj heq
    simp [decode_and_verify_finalizes, hj, heq]

theorem decode_and_verify_finalizes_dispatch_order_witness :
    decode_and_verify_finalizes (fun _ => none) true (fun _ => true) []
        (10, 5) = some (.error .JustificationDecode)
    ∧ decode_and_verify_finalizes (fun _ => some ⟨1, ⟨10, 5, []⟩, []⟩) true
        (fun _ => true) [] (0, 0)
        = some (.error (.BadJustification invalidTargetMsg))
    ∧ decode_and_verify_finalizes (fun _ => some ⟨1, ⟨10, 5, []⟩, []⟩) true
        (fun _ => true) [] (10, 5)
        = some (.ok ⟨1, ⟨10, 5, []⟩, []⟩) := by
  refine ⟨?_, ?_, ?_⟩
  · exact (decode_and_verify_finalizes_dispatch_order (fun _ => none) true
      (fun _ => true) [] (10, 5)).1 rfl
  · exact (decode_and_verify_finalizes_dispatch_order
      (fun _ => some ⟨1, ⟨10, 5, []⟩, []⟩) true (fun _ => true) [] (0, 0)).2.1
      ⟨1, ⟨10, 5, []⟩, []⟩ rfl (by decide)
  · rw [(decode_and_verify_finalizes_dispatch_order
      (fun _ => some ⟨1, ⟨10, 5, []⟩, []⟩) true (fun _ => true) [] (10, 5)).2.2
      ⟨1, ⟨10, 5, []⟩, []⟩ rfl rfl]
    decide

theorem verify_ancestry_early_return_witness :
    verify_ancestry
        ([⟨3, 7, 0, 9⟩, ⟨2, 5, 0, 7⟩] ++ [⟨99, 123, 0, 77⟩])
        ⟨1, 0, 0, 5⟩ ⟨3, 7, 0, 9⟩ = some (.ok ()) :=
  verify_ancestry_early_return.1 ⟨1, 0, 0, 5⟩ ⟨3, 7, 0, 9⟩
    [⟨3, 7, 0, 9⟩, ⟨2, 5, 0, 7⟩] [⟨99, 123, 0, 77⟩] (by decide)

end Bridge
